import Mathlib

/-!
Verification of the `lamdera-websocket` client adapter.

The development shallow-embeds the two layers of the source:
* the Wire3 binary codec (zigzag map, range-partitioned unsigned varint,
  length-prefixed UTF-8 strings, tagged message envelope, base64/JSON transport
  framing, session-id generation), and
* the connection state machine (handshake, leader-avoidance loop, send/close).

Buffers are `List Nat` of byte values; JavaScript numbers are `Int` (with the
32-bit wrap of the shift/mask operators made explicit); fallible operations
return `Except String`.
-/

namespace LamderaWS

/-! ### JavaScript numeric primitives

JS bitwise operators convert their operands with ToInt32 (wrap into
[-2^31, 2^31)) before operating.  `x >> k` is an arithmetic (flooring) shift of
the wrapped value, and `v & 0xFF` keeps the low 8 bits of the two's-complement
representation, which for any int32 `v` is `v.emod 256`. -/

def jsToInt32 (n : ℤ) : ℤ := (n + 2 ^ 31) % 2 ^ 32 - 2 ^ 31

/-- `(n >> k) & 0xFF` as computed by JavaScript. -/
def jsByte (n : ℤ) (k : Nat) : ℕ := ((jsToInt32 n).fdiv (2 ^ k) % 256).toNat

/-! ### Zigzag map (`signedToUnsigned` / `unsignedToSigned`)

JS `%` keeps the sign of the dividend (`Int.tmod`); `Math.floor` of a quotient
of integers is `Int.fdiv`. -/

def signedToUnsigned (i : ℤ) : ℤ :=
  if i < 0 then -2 * i - 1 else 2 * i

def unsignedToSigned (i : ℤ) : ℤ :=
  if i.tmod 2 = 1 then -((i + 1).fdiv 2) else i.fdiv 2

/-! ### IEEE-754 binary64 (`Buffer.writeDoubleLE` / `Buffer.readDoubleLE`)

`writeDoubleLE` stores the double nearest to `n`; every `n ≤ 2 ^ 53` is exactly
representable and the bit pattern below is exact for those (larger values would
round and are outside the range any claim quantifies over).  `readDoubleLE`
followed by `Math.floor` is `floorDoubleLE`; a bit pattern with exponent field
2047 denotes NaN or ±Infinity, which `Math.floor` maps to itself (a
non-integer); that case is unreachable in this development and mapped to 0. -/

def float64Bits (n : ℕ) : ℕ :=
  if n = 0 then 0
  else
    let e := Nat.log 2 n
    (e + 1023) * 2 ^ 52 + (n * 2 ^ 52 / 2 ^ e - 2 ^ 52)

/-- The 8 little-endian bytes `writeDoubleLE` produces for the integer `n`. -/
def doubleLEBytes (n : ℕ) : List ℕ :=
  (List.range 8).map (fun i => float64Bits n / 2 ^ (8 * i) % 256)

/-- `Math.floor(buffer.readDoubleLE(...))` on 8 little-endian bytes. -/
def floorDoubleLE (bs : List ℕ) : ℤ :=
  let bits : ℕ := bs.foldr (fun b acc => b + 256 * acc) 0
  let M : ℕ := bits % 2 ^ 52
  let E : ℕ := bits / 2 ^ 52 % 2 ^ 11
  let sgn : ℕ := bits / 2 ^ 63 % 2
  if E = 2047 then 0
  else
    let m : ℤ := if E = 0 then (M : ℤ) else ((2 ^ 52 + M : ℕ) : ℤ)
    let v : ℤ := if sgn = 1 then -m else m
    let Eeff := if E = 0 then 1 else E
    if 1075 ≤ Eeff then v * 2 ^ (Eeff - 1075) else v.fdiv (2 ^ (1075 - Eeff))

/-! ### Wire3 unsigned varint -/

/-- Result record of the integer decoders (`{ value, bytesRead }`). -/
structure DecodeResult where
  value : ℤ
  bytesRead : ℕ
deriving DecidableEq

/-- `encodeUnsignedInt` from the source: range-partitioned encoding.
The guarded branches operate on a non-negative JS integer; the byte
expressions `(n >> k) & 0xFF` are `jsByte`. -/
def encodeUnsignedInt (n : ℤ) : Except String (List ℕ) :=
  if n < 0 then
    .error ("encodeUnsignedInt requires non-negative integer, got " ++ toString n)
  else if n ≤ 215 then
    .ok [n.toNat]
  else if n ≤ 9431 then
    let adjusted := n - 216
    .ok [(216 + adjusted.fdiv 256).toNat, (adjusted.tmod 256).toNat]
  else if n < 65536 then
    .ok [252, jsByte n 8, jsByte n 0]
  else if n < 16777216 then
    .ok [253, jsByte n 16, jsByte n 8, jsByte n 0]
  else if n < 4294967296 then
    .ok [254, jsByte n 24, jsByte n 16, jsByte n 8, jsByte n 0]
  else
    .ok (255 :: doubleLEBytes n.toNat)

/-- `decodeUnsignedInt(buffer, offset)`.  The `<<`/`|` combinations of the
252/253 branches act on guarded byte values (all below 2^24), where the JS
operators agree with the `Nat` shift and or. -/
def decodeUnsignedInt (buffer : List ℕ) (offset : ℕ) : Except String DecodeResult :=
  if buffer.length ≤ offset then
    .error "Buffer too short for Wire3 int decode"
  else
    let b0 := buffer.getD offset 0
    if b0 ≤ 215 then
      .ok ⟨(b0 : ℤ), 1⟩
    else if b0 < 252 then
      if buffer.length ≤ offset + 1 then
        .error "Buffer too short for 2-byte Wire3 int"
      else
        let b1 := buffer.getD (offset + 1) 0
        .ok ⟨((216 + (b0 - 216) * 256 + b1 : ℕ) : ℤ), 2⟩
    else if b0 = 252 then
      if buffer.length ≤ offset + 2 then
        .error "Buffer too short for marker-252 Wire3 int"
      else
        .ok ⟨(((buffer.getD (offset + 1) 0 <<< 8) ||| buffer.getD (offset + 2) 0 : ℕ) : ℤ), 3⟩
    else if b0 = 253 then
      if buffer.length ≤ offset + 3 then
        .error "Buffer too short for marker-253 Wire3 int"
      else
        .ok ⟨((((buffer.getD (offset + 1) 0 <<< 16) ||| (buffer.getD (offset + 2) 0 <<< 8)) |||
              buffer.getD (offset + 3) 0 : ℕ) : ℤ), 4⟩
    else if b0 = 254 then
      if buffer.length ≤ offset + 4 then
        .error "Buffer too short for marker-254 Wire3 int"
      else
        .ok ⟨((buffer.getD (offset + 1) 0 * 0x1000000 + buffer.getD (offset + 2) 0 * 0x10000 +
              buffer.getD (offset + 3) 0 * 0x100 + buffer.getD (offset + 4) 0 : ℕ) : ℤ), 5⟩
    else if b0 = 255 then
      if buffer.length ≤ offset + 8 then
        .error "Buffer too short for marker-255 Wire3 float64"
      else
        .ok ⟨floorDoubleLE ((buffer.drop (offset + 1)).take 8), 9⟩
    else
      .error ("Invalid Wire3 int marker: " ++ toString b0)

/-- Number of bytes the form declared by a first byte `b0` occupies
(the claim C4 table; matches the reads of `decodeUnsignedInt`). -/
def wire3FormLength (b0 : ℕ) : ℕ :=
  if b0 ≤ 215 then 1
  else if b0 < 252 then 2
  else if b0 = 252 then 3
  else if b0 = 253 then 4
  else if b0 = 254 then 5
  else 9

def encodeInt64 (signedValue : ℤ) : Except String (List ℕ) :=
  encodeUnsignedInt (signedToUnsigned signedValue)

def decodeInt64 (buffer : List ℕ) (offset : ℕ) : Except String DecodeResult :=
  match decodeUnsignedInt buffer offset with
  | .ok r => .ok ⟨unsignedToSigned r.value, r.bytesRead⟩
  | .error e => .error e

/-! ### UTF-8 (`Buffer.from(str, 'utf8')` / `buffer.toString('utf8')`)

`Buffer.from` emits the standard UTF-8 encoding of each scalar value.
`toString('utf8')` never throws: byte sequences that are not valid UTF-8
decode to U+FFFD replacement characters (WHATWG decoder).  The claims only
exercise the decoder on valid encodings. -/

def utf8EncodeChar (c : Char) : List ℕ :=
  let cp := c.toNat
  if cp < 0x80 then [cp]
  else if cp < 0x800 then [0xC0 + cp / 64, 0x80 + cp % 64]
  else if cp < 0x10000 then [0xE0 + cp / 4096, 0x80 + cp / 64 % 64, 0x80 + cp % 64]
  else [0xF0 + cp / 262144, 0x80 + cp / 4096 % 64, 0x80 + cp / 64 % 64, 0x80 + cp % 64]

def utf8Encode (s : String) : List ℕ := (s.data.map utf8EncodeChar).flatten

def replacementChar : Char := Char.ofNat 0xFFFD

/-- UTF-8 decoding with U+FFFD replacement, driven by a fuel counter that is
always instantiated with the byte count (each step consumes at least one
byte). -/
def utf8DecodeAux : ℕ → List ℕ → List Char
  | 0, _ => []
  | _ + 1, [] => []
  | fuel + 1, b0 :: rest =>
    if b0 < 0x80 then Char.ofNat b0 :: utf8DecodeAux fuel rest
    else if 0xC2 ≤ b0 ∧ b0 ≤ 0xDF then
      match rest with
      | b1 :: rest1 =>
        if 0x80 ≤ b1 ∧ b1 ≤ 0xBF then
          Char.ofNat ((b0 - 0xC0) * 64 + (b1 - 0x80)) :: utf8DecodeAux fuel rest1
        else replacementChar :: utf8DecodeAux fuel rest
      | [] => [replacementChar]
    else if 0xE0 ≤ b0 ∧ b0 ≤ 0xEF then
      match rest with
      | b1 :: b2 :: rest2 =>
        if (if b0 = 0xE0 then 0xA0 ≤ b1 ∧ b1 ≤ 0xBF
            else if b0 = 0xED then 0x80 ≤ b1 ∧ b1 ≤ 0x9F
            else 0x80 ≤ b1 ∧ b1 ≤ 0xBF) ∧ 0x80 ≤ b2 ∧ b2 ≤ 0xBF then
          Char.ofNat ((b0 - 0xE0) * 4096 + (b1 - 0x80) * 64 + (b2 - 0x80)) ::
            utf8DecodeAux fuel rest2
        else replacementChar :: utf8DecodeAux fuel rest
      | _ => replacementChar :: utf8DecodeAux fuel rest
    else if 0xF0 ≤ b0 ∧ b0 ≤ 0xF4 then
      match rest with
      | b1 :: b2 :: b3 :: rest3 =>
        if (if b0 = 0xF0 then 0x90 ≤ b1 ∧ b1 ≤ 0xBF
            else if b0 = 0xF4 then 0x80 ≤ b1 ∧ b1 ≤ 0x8F
            else 0x80 ≤ b1 ∧ b1 ≤ 0xBF) ∧ (0x80 ≤ b2 ∧ b2 ≤ 0xBF) ∧ 0x80 ≤ b3 ∧ b3 ≤ 0xBF then
          Char.ofNat ((b0 - 0xF0) * 262144 + (b1 - 0x80) * 4096 + (b2 - 0x80) * 64 + (b3 - 0x80)) ::
            utf8DecodeAux fuel rest3
        else replacementChar :: utf8DecodeAux fuel rest
      | _ => replacementChar :: utf8DecodeAux fuel rest
    else replacementChar :: utf8DecodeAux fuel rest

def utf8Decode (bs : List ℕ) : String := String.mk (utf8DecodeAux bs.length bs)

/-! ### Wire3 strings and messages -/

def encodeString (s : String) : Except String (List ℕ) :=
  let strBuffer := utf8Encode s
  match encodeInt64 (strBuffer.length : ℤ) with
  | .ok lengthBuffer => .ok (lengthBuffer ++ strBuffer)
  | .error e => .error e

/-- Result record of `decodeString`; `bytesRead` is `lengthBytes + length`
as the source computes it, which can be negative when the declared length
is negative. -/
structure StringDecodeResult where
  value : String
  bytesRead : ℤ
deriving DecidableEq

def decodeString (buffer : List ℕ) (offset : ℕ) : Except String StringDecodeResult :=
  match decodeInt64 buffer offset with
  | .error e => .error e
  | .ok r =>
    let length := r.value
    let strStart := offset + r.bytesRead
    let strEnd : ℤ := (strStart : ℤ) + length
    if (buffer.length : ℤ) < strEnd then
      .error "Buffer too short for string"
    else
      .ok ⟨utf8Decode ((buffer.drop strStart).take (strEnd - (strStart : ℤ)).toNat),
           (r.bytesRead : ℤ) + length⟩

/-- `Buffer.from([duVariant])` wraps its element into a byte. -/
def encodeMessage (message : String) (duVariant : ℕ) : Except String (List ℕ) :=
  match encodeString message with
  | .ok stringEncoded => .ok (duVariant % 256 :: stringEncoded)
  | .error e => .error e

/-- `decodeMessage`: soft-failing tagged-envelope decoder (returns `none`
rather than raising); `MIN_BUFFER_LENGTH = 2`. -/
def decodeMessage (buffer : List ℕ) (expectedDuVariant : ℕ) : Option String :=
  if buffer.length < 2 then none
  else if buffer.getD 0 0 ≠ expectedDuVariant then none
  else
    match decodeString buffer 1 with
    | .ok r => some r.value
    | .error _ => none

/-! ### Transport framing (`createTransportMessage`) -/

def base64Chars : List Char :=
  "ABCDEFGHIJKLMNOPQRSTUVWXYZabcdefghijklmnopqrstuvwxyz0123456789+/".data

def base64Char (n : ℕ) : Char := base64Chars.getD n 'A'

/-- Standard base64 with padding (`buffer.toString('base64')`). -/
def base64EncodeAux : List ℕ → List Char
  | [] => []
  | [a] => [base64Char (a / 4 % 64), base64Char (a % 4 * 16), '=', '=']
  | [a, b] => [base64Char (a / 4 % 64), base64Char (a % 4 * 16 + b / 16),
               base64Char (b % 16 * 4), '=']
  | a :: b :: c :: rest =>
      base64Char (a / 4 % 64) :: base64Char (a % 4 * 16 + b / 16) ::
        base64Char (b % 16 * 4 + c / 64) :: base64Char (c % 64) :: base64EncodeAux rest

def base64Encode (bs : List ℕ) : String := String.mk (base64EncodeAux bs)

def hexDigit (n : ℕ) : Char := "0123456789abcdef".data.getD n '0'

/-- Per-character escaping of `JSON.stringify` for ordinary scalar values. -/
def jsonEscapeChar (c : Char) : List Char :=
  if c = '"' then ['\\', '"']
  else if c = '\\' then ['\\', '\\']
  else if c.toNat < 0x20 then
    if c = Char.ofNat 8 then ['\\', 'b']
    else if c = Char.ofNat 9 then ['\\', 't']
    else if c = Char.ofNat 10 then ['\\', 'n']
    else if c = Char.ofNat 12 then ['\\', 'f']
    else if c = Char.ofNat 13 then ['\\', 'r']
    else ['\\', 'u', '0', '0', hexDigit (c.toNat / 16), hexDigit (c.toNat % 16)]
  else [c]

def jsonEscape (s : String) : String := String.mk ((s.data.map jsonEscapeChar).flatten)

def jsonStr (s : String) : String := "\"" ++ jsonEscape s ++ "\""

/-- `createTransportMessage(sessionId, connectionId, message, duVariant)`:
the outbound JSON envelope; `c` falls back to the session id when the
connection id is absent or empty (JS falsy). -/
def createTransportMessage (sessionId : String) (connectionId : Option String)
    (message : String) (duVariant : ℕ) : Except String String :=
  match encodeMessage message duVariant with
  | .error e => .error e
  | .ok encoded =>
    let c := match connectionId with
      | some cid => if cid.isEmpty then sessionId else cid
      | none => sessionId
    .ok ("\x7b\"t\":\"ToBackend\",\"s\":" ++ jsonStr sessionId ++ ",\"c\":" ++ jsonStr c ++
         ",\"b\":" ++ jsonStr (base64Encode encoded) ++ "\x7d")

/-! ### Session identifiers -/

def SESSION_ID_PADDING_CHARS : String := "c04b8f7b594cdeedebc2a8029b82943b0a620815"

def digitChar (d : ℕ) : Char := Char.ofNat (48 + d)

/-- Decimal rendering of a natural number (JS `Number.prototype.toString`);
fuel-driven so that it evaluates by kernel reduction (`fuel = n + 1` always
dominates the digit count). -/
def decimalReprAux : ℕ → ℕ → List Char → List Char
  | 0, _, acc => acc
  | fuel + 1, n, acc =>
    if n < 10 then digitChar n :: acc
    else decimalReprAux fuel (n / 10) (digitChar (n % 10) :: acc)

def decimalRepr (n : ℕ) : String := String.mk (decimalReprAux (n + 1) n [])

/-- `String.prototype.padEnd(targetLength, pad)`: appends the cyclic
repetition of `pad` truncated to the missing length (no-op when the string is
already long enough or `pad` is empty). -/
def jsPadEnd (s : String) (targetLength : ℕ) (pad : String) : String :=
  let needed := targetLength - s.length
  String.mk (s.data ++ (List.replicate needed pad.data).flatten.take needed)

/-- `generateSessionId`, parameterized by the draw
`Math.floor(Math.random() * 990000) + 10000` (an integer in
[10000, 1000000)). -/
def generateSessionId (randomNum : ℕ) : String :=
  jsPadEnd (decimalRepr randomNum) 40 SESSION_ID_PADDING_CHARS

def createSessionCookie (sessionId : String) : String := "sid=" ++ sessionId

/-! ### Connection state machine

`ClientState` collects the mutable fields of a `LamderaWebSocket` instance
(readyState codes: 0 = CONNECTING, 1 = OPEN, 2 = CLOSING, 3 = CLOSED).
Interactions with the outside (socket operations, caller callbacks, timer
scheduling) are reified as an ordered `Effect` list.  JS nullish string
fields are `Option String`; a JS truthiness test on them is `¬ jsFalsy`. -/

structure ClientState where
  sessionId : String
  cookie : String
  connectionId : Option String
  clientId : Option String
  leaderId : Option String
  readyState : ℕ
  maxRetries : ℕ
  duVariant : ℕ
  setupCalled : Bool
  isReady : Bool
  retryCount : ℕ
  retryTimeout : Bool
  messageQueue : List String
  wsPresent : Bool
deriving DecidableEq

inductive Effect where
  | wsClose
  | wsSend (msg : String)
  | scheduleRetry
  | cbOpen
  | cbSetup (clientId : String) (leaderId : Option String) (isLeader : Bool)
  | cbMessage (data : String)
  | cbLeaderDisconnect (retryCount : ℕ)
deriving DecidableEq

/-- JS falsiness of a nullable string (`null`, `undefined` and `""`). -/
def jsFalsy : Option String → Bool
  | none => true
  | some s => s.isEmpty

structure LeaderEvaluation where
  previousLeader : Option String
  newLeader : String
  iAmLeader : Bool
  action : String
deriving DecidableEq

/-- `_evaluateLeaderStatus(newLeaderId)`: `null` when either the incoming
leader id or the stored client id is falsy. -/
def evaluateLeaderStatus (st : ClientState) (newLeaderId : Option String) :
    Option LeaderEvaluation :=
  if jsFalsy newLeaderId || jsFalsy st.clientId then none
  else
    match newLeaderId, st.clientId with
    | some l, some c =>
      some ⟨st.leaderId, l, c = l, if c = l then "disconnect" else "continue"⟩
    | _, _ => none

/-- `_disconnectInternal()`: cancel the retry timer, detach and close the
socket if present, drop the queue and the session-scoped identifiers. -/
def disconnectInternal (st : ClientState) : ClientState × List Effect :=
  ({ st with
      retryTimeout := false
      isReady := false
      messageQueue := []
      connectionId := none
      clientId := none
      leaderId := none
      wsPresent := false },
   if st.wsPresent then [Effect.wsClose] else [])

/-- `_handleLeaderDisconnection()`. -/
def handleLeaderDisconnection (st : ClientState) : ClientState × List Effect :=
  let st1 := { st with retryCount := st.retryCount + 1, readyState := 0 }
  let p := disconnectInternal st1
  if p.1.retryCount ≤ p.1.maxRetries then
    ({ p.1 with retryTimeout := true }, p.2 ++ [Effect.scheduleRetry])
  else
    ({ p.1 with readyState := 3 }, p.2 ++ [Effect.cbLeaderDisconnect p.1.retryCount])

/-- `_applyLeaderStatusChange(evaluation)`; the `Bool` mirrors the early
return the caller performs after a disconnect. -/
def applyLeaderStatusChange (st : ClientState) (ev : Option LeaderEvaluation) :
    ClientState × List Effect × Bool :=
  match ev with
  | none => (st, [], false)
  | some e =>
    let st1 := { st with leaderId := some e.newLeader }
    if e.action = "disconnect" then
      let p := handleLeaderDisconnection st1
      (p.1, p.2, true)
    else (st1, [], false)

/-- Inbound frames after `parseTransportMessage` classification. -/
inductive Frame where
  | protocol (sessionId : Option String) (connectionId : Option String)
  | election (leaderId : Option String)
  | message (data : String)
  | parseError
deriving DecidableEq

/-- The `_ws.onmessage` handler, acting on a classified frame.  Callbacks are
modelled as installed (each firing is recorded as an effect). -/
def handleFrame (st : ClientState) (f : Frame) : ClientState × List Effect :=
  match f with
  | .protocol _ cid =>
    if ¬ jsFalsy cid then
      match cid with
      | some c =>
        if jsFalsy st.connectionId then
          let st1 := { st with connectionId := some c, clientId := some c }
          let st2 := if 0 < st1.retryCount then { st1 with retryCount := 0 } else st1
          if ¬ st2.setupCalled then
            ({ st2 with setupCalled := true },
             [Effect.cbOpen, Effect.cbSetup c st2.leaderId false])
          else (st2, [Effect.cbOpen])
        else (st, [])
      | none => (st, [])
    else (st, [])
  | .election leaderId =>
    let p := applyLeaderStatusChange st (evaluateLeaderStatus st leaderId)
    (p.1, p.2.1)
  | .message data => (st, [Effect.cbMessage data])
  | .parseError => (st, [])

/-- `send(data)`. -/
def send (st : ClientState) (data : String) : Except String (ClientState × List Effect) :=
  if 0 < st.retryCount ∧ st.retryCount ≤ st.maxRetries then
    .ok (st, [])
  else if st.readyState = 0 then
    match createTransportMessage st.sessionId st.connectionId data st.duVariant with
    | .ok tm => .ok ({ st with messageQueue := st.messageQueue ++ [tm] }, [])
    | .error e => .error e
  else if st.readyState ≠ 1 then
    .error ("WebSocket is not open: readyState " ++ toString st.readyState)
  else
    match createTransportMessage st.sessionId st.connectionId data st.duVariant with
    | .ok tm => .ok (st, [Effect.wsSend tm])
    | .error e => .error e

/-- `close(code, reason)`: clear the retry timer, go to CLOSING, close the
socket if one exists — and otherwise go directly to CLOSED. -/
def close (st : ClientState) : ClientState × List Effect :=
  let st1 := { st with retryTimeout := false, readyState := 2 }
  if st1.wsPresent then (st1, [Effect.wsClose])
  else ({ st1 with readyState := 3 }, [])

/-! ### Concrete states used by the claim theorems -/

/-- A freshly constructed client that has not yet completed the handshake
(`clientId` unset) but already saw an election announcing leader "Z". -/
def exampleNoClientState : ClientState where
  sessionId := "s"
  cookie := "sid=s"
  connectionId := none
  clientId := none
  leaderId := some "Z"
  readyState := 1
  maxRetries := 10
  duVariant := 0
  setupCalled := false
  isReady := true
  retryCount := 0
  retryTimeout := false
  messageQueue := []
  wsPresent := true

/-- A handshaken client with id "A" whose current leader is "B". -/
def exampleClientAState : ClientState where
  sessionId := "s"
  cookie := "sid=s"
  connectionId := some "A"
  clientId := some "A"
  leaderId := some "B"
  readyState := 1
  maxRetries := 10
  duVariant := 0
  setupCalled := true
  isReady := true
  retryCount := 0
  retryTimeout := false
  messageQueue := []
  wsPresent := true

/-- A handshaken client with id "X1" and `maxRetries = 2`. -/
def exampleHandshakenState : ClientState where
  sessionId := "s"
  cookie := "sid=s"
  connectionId := some "X1"
  clientId := some "X1"
  leaderId := none
  readyState := 1
  maxRetries := 2
  duVariant := 0
  setupCalled := true
  isReady := true
  retryCount := 0
  retryTimeout := false
  messageQueue := []
  wsPresent := true

/-- A client mid leader-avoidance: torn down after one self-election, retry
timer pending, no underlying socket. -/
def exampleRetryingState : ClientState where
  sessionId := "s"
  cookie := "sid=s"
  connectionId := none
  clientId := none
  leaderId := none
  readyState := 0
  maxRetries := 10
  duVariant := 0
  setupCalled := true
  isReady := false
  retryCount := 1
  retryTimeout := true
  messageQueue := []
  wsPresent := false

/-! ## Helper lemmas -/

theorem encodeUnsignedInt_ok_of_nonneg (n : ℤ) (h : 0 ≤ n) :
    ∃ bs, encodeUnsignedInt n = .ok bs := by
  unfold encodeUnsignedInt
  rw [if_neg (by omega)]
  split
  · exact ⟨_, rfl⟩
  · split
    · exact ⟨_, rfl⟩
    · split
      · exact ⟨_, rfl⟩
      · split
        · exact ⟨_, rfl⟩
        · split
          · exact ⟨_, rfl⟩
          · exact ⟨_, rfl⟩

theorem signedToUnsigned_nonneg (i : ℤ) : 0 ≤ signedToUnsigned i := by
  unfold signedToUnsigned
  split <;> omega

theorem encodeInt64_ok (n : ℤ) : ∃ bs, encodeInt64 n = .ok bs :=
  encodeUnsignedInt_ok_of_nonneg _ (signedToUnsigned_nonneg n)

theorem encodeString_ok (s : String) : ∃ bs, encodeString s = .ok bs := by
  obtain ⟨lb, hlb⟩ := encodeInt64_ok ((utf8Encode s).length : ℤ)
  exact ⟨_, by unfold encodeString; simp only []; rw [hlb]⟩

theorem encodeMessage_ok (s : String) (k : ℕ) : ∃ bs, encodeMessage s k = .ok bs := by
  obtain ⟨bs, hbs⟩ := encodeString_ok s
  exact ⟨_, by unfold encodeMessage; rw [hbs]⟩

theorem createTransportMessage_ok (sid : String) (cid : Option String) (msg : String)
    (dv : ℕ) : ∃ tm, createTransportMessage sid cid msg dv = .ok tm := by
  obtain ⟨bs, hbs⟩ := encodeMessage_ok msg dv
  exact ⟨_, by unfold createTransportMessage; rw [hbs]⟩

theorem lor_shiftLeft_eq_add (k : ℕ) : ∀ a b : ℕ, b < 2 ^ k → (a <<< k) ||| b = a * 2 ^ k + b := by
  induction k with
  | zero =>
    intro a b hb
    interval_cases b
    simp [Nat.shiftLeft_eq]
  | succ k ih =>
    intro a b hb
    have h1 : a <<< (k + 1) = Nat.bit false (a <<< k) := by
      simp [Nat.shiftLeft_eq, Nat.bit_val, pow_succ]
      ring
    have h2 : b = Nat.bit b.bodd b.div2 := (Nat.bit_decomp b).symm
    rw [h1]
    conv_lhs => rw [h2]
    rw [Nat.lor_bit]
    simp only [Bool.false_or]
    rw [Nat.bit_val, ih a b.div2 (by rw [Nat.div2_val]; omega)]
    rw [Nat.div2_val]
    have h3 : b.bodd.toNat = b % 2 := (Nat.mod_two_of_bodd b).symm
    rw [h3, pow_succ]
    have h5 : a * (2 ^ k * 2) = a * 2 ^ k * 2 := by ring
    rw [h5]
    generalize a * 2 ^ k = y
    omega

theorem jsByte_eq_spec (n : ℤ) (h0 : 0 ≤ n) (h1 : n < 4294967296) :
    jsByte n 0 = n.toNat % 256 ∧ jsByte n 8 = n.toNat / 256 % 256 ∧
    jsByte n 16 = n.toNat / 65536 % 256 ∧ jsByte n 24 = n.toNat / 16777216 % 256 := by
  unfold jsByte jsToInt32
  rw [Int.fdiv_eq_ediv _ (by norm_num), Int.fdiv_eq_ediv _ (by norm_num),
      Int.fdiv_eq_ediv _ (by norm_num), Int.fdiv_eq_ediv _ (by norm_num)]
  norm_num
  omega

theorem zigzag_roundtrip (n : ℤ) : unsignedToSigned (signedToUnsigned n) = n := by
  unfold signedToUnsigned unsignedToSigned
  by_cases h : n < 0
  · rw [if_pos h]
    have h1 : (-2 * n - 1).tmod 2 = 1 := by
      rw [Int.tmod_eq_emod (by omega) (by norm_num)]
      omega
    rw [if_pos h1, Int.fdiv_eq_ediv _ (by norm_num)]
    omega
  · rw [if_neg h]
    have h1 : (2 * n).tmod 2 = 0 := by
      rw [Int.tmod_eq_emod (by omega) (by norm_num)]
      omega
    rw [if_neg (by rw [h1]; norm_num), Int.fdiv_eq_ediv _ (by norm_num)]
    omega

theorem signedToUnsigned_le (n : ℤ) (h : |n| ≤ 2 ^ 52) : signedToUnsigned n ≤ 2 ^ 53 := by
  rw [abs_le] at h
  unfold signedToUnsigned
  norm_num at h ⊢
  split <;> omega

theorem doubleLEBytes_foldr (n : ℕ) (h : float64Bits n < 2 ^ 64) :
    (doubleLEBytes n).foldr (fun b acc => b + 256 * acc) 0 = float64Bits n := by
  unfold doubleLEBytes
  have h8 : List.range 8 = [0, 1, 2, 3, 4, 5, 6, 7] := by decide
  rw [h8]
  simp only [List.map_cons, List.map_nil, List.foldr_cons, List.foldr_nil]
  norm_num
  omega

theorem floorDoubleLE_doubleLEBytes (u : ℕ) (h32 : 2 ^ 32 ≤ u) (h53 : u ≤ 2 ^ 53) :
    floorDoubleLE (doubleLEBytes u) = (u : ℤ) := by
  have c32 : (2 : ℕ) ^ 32 = 4294967296 := by norm_num
  have c53 : (2 : ℕ) ^ 53 = 9007199254740992 := by norm_num
  have hu0 : u ≠ 0 := by omega
  set e := Nat.log 2 u with he
  have hle : 2 ^ e ≤ u := Nat.pow_log_le_self 2 hu0
  have hlt : u < 2 ^ (e + 1) := Nat.lt_pow_succ_log_self (by norm_num) u
  have he32 : 32 ≤ e := by
    by_contra hc
    push_neg at hc
    have : 2 ^ (e + 1) ≤ 2 ^ 32 := Nat.pow_le_pow_right (by norm_num) (by omega)
    omega
  have he53 : e ≤ 53 := by
    by_contra hc
    push_neg at hc
    have h54 : 2 ^ 54 ≤ 2 ^ e := Nat.pow_le_pow_right (by norm_num) (by omega)
    have c54 : (2 : ℕ) ^ 54 = 18014398509481984 := by norm_num
    omega
  have c52 : (2 : ℕ) ^ 52 = 4503599627370496 := by norm_num
  by_cases hcase : e ≤ 52
  · have hsplit : u * 2 ^ 52 = u * 2 ^ (52 - e) * 2 ^ e := by
      rw [mul_assoc, ← pow_add]
      congr 2
      omega
    have hdiv : u * 2 ^ 52 / 2 ^ e = u * 2 ^ (52 - e) := by
      rw [hsplit, Nat.mul_div_cancel _ (pow_pos (by norm_num) e)]
    set m := u * 2 ^ (52 - e) with hm
    have hm1 : 2 ^ 52 ≤ m := by
      calc (2 : ℕ) ^ 52 = 2 ^ e * 2 ^ (52 - e) := by rw [← pow_add]; congr 1; omega
        _ ≤ u * 2 ^ (52 - e) := Nat.mul_le_mul_right _ hle
    have hm2 : m < 2 ^ 53 := by
      calc m < 2 ^ (e + 1) * 2 ^ (52 - e) :=
            (Nat.mul_lt_mul_right (pow_pos (by norm_num) _)).mpr hlt
        _ = 2 ^ 53 := by rw [← pow_add]; congr 1; omega
    have hbits : float64Bits u = (e + 1023) * 2 ^ 52 + (m - 2 ^ 52) := by
      unfold float64Bits
      rw [if_neg hu0]
      simp only [← he, hdiv]
    have c64 : (2 : ℕ) ^ 64 = 18446744073709551616 := by norm_num
    have hfb64 : float64Bits u < 2 ^ 64 := by
      rw [hbits]
      omega
    simp only [floorDoubleLE]
    rw [doubleLEBytes_foldr u hfb64, hbits]
    have c11 : (2 : ℕ) ^ 11 = 2048 := by norm_num
    have c63 : (2 : ℕ) ^ 63 = 9223372036854775808 := by norm_num
    have hE : ((e + 1023) * 2 ^ 52 + (m - 2 ^ 52)) / 2 ^ 52 % 2 ^ 11 = e + 1023 := by omega
    have hsgn : ((e + 1023) * 2 ^ 52 + (m - 2 ^ 52)) / 2 ^ 63 % 2 = 0 := by omega
    have hM : ((e + 1023) * 2 ^ 52 + (m - 2 ^ 52)) % 2 ^ 52 = m - 2 ^ 52 := by omega
    rw [hE, hsgn, hM]
    simp only [if_neg (show ¬ (e + 1023 = 2047) by omega),
               if_neg (show ¬ (e + 1023 = 0) by omega),
               if_neg (show ¬ ((0 : ℕ) = 1) by omega)]
    have hmadd : 2 ^ 52 + (m - 2 ^ 52) = m := by omega
    rw [hmadd]
    by_cases h52 : e = 52
    · rw [if_pos (show (1075 : ℕ) ≤ e + 1023 by omega)]
      have hz : e + 1023 - 1075 = 0 := by omega
      rw [hz, pow_zero, mul_one]
      have hmu : m = u := by
        rw [hm]
        have h0 : 52 - e = 0 := by omega
        rw [h0, pow_zero, mul_one]
      rw [hmu]
    · rw [if_neg (by omega : ¬ (1075 ≤ e + 1023))]
      have hexp : 1075 - (e + 1023) = 52 - e := by omega
      rw [hexp, Int.fdiv_eq_ediv _ (by positivity)]
      rw [hm]
      push_cast
      rw [Int.mul_ediv_cancel _ (by positivity)]
  · have he' : e = 53 := by omega
    have hu : u = 2 ^ 53 := by
      have h1 : 2 ^ 53 ≤ u := by
        calc (2 : ℕ) ^ 53 = 2 ^ e := by rw [he']
          _ ≤ u := hle
      omega
    subst hu
    have hlog : Nat.log 2 ((2 : ℕ) ^ 53) = 53 := Nat.log_pow (by norm_num) 53
    have hbits : float64Bits (2 ^ 53) = 1076 * 2 ^ 52 := by
      unfold float64Bits
      rw [if_neg (by positivity)]
      simp only [hlog]
      have hq : (2 : ℕ) ^ 53 * 2 ^ 52 / 2 ^ 53 = 2 ^ 52 :=
        Nat.mul_div_cancel_left _ (by positivity)
      rw [hq]
      norm_num
    have hfb64 : float64Bits (2 ^ 53) < 2 ^ 64 := by
      rw [hbits]
      norm_num
    simp only [floorDoubleLE]
    rw [doubleLEBytes_foldr _ hfb64, hbits]
    norm_num

theorem getD_mid (pre bs post : List ℕ) (i : ℕ) (h : i < bs.length) :
    (pre ++ bs ++ post).getD (pre.length + i) 0 = bs.getD i 0 := by
  rw [List.append_assoc, List.getD_append_right _ _ _ _ (Nat.le_add_right _ _)]
  have hi : pre.length + i - pre.length = i := by omega
  rw [hi]
  exact List.getD_append _ _ _ _ h

theorem decodeUnsignedInt_form1 (pre post : List ℕ) (b : ℕ) (hb : b ≤ 215) :
    decodeUnsignedInt (pre ++ [b] ++ post) pre.length = .ok ⟨(b : ℤ), 1⟩ := by
  have hlen : (pre ++ [b] ++ post).length = pre.length + 1 + post.length := by
    simp only [List.length_append, List.length_cons, List.length_nil]
  have hg0 : (pre ++ [b] ++ post).getD pre.length 0 = b := by
    simpa using getD_mid pre [b] post 0 (by simp)
  simp only [decodeUnsignedInt]
  rw [hlen, hg0, if_neg (by omega), if_pos hb]

theorem decodeUnsignedInt_form2 (pre post : List ℕ) (b0 b1 : ℕ) (h1 : 216 ≤ b0)
    (h2 : b0 < 252) :
    decodeUnsignedInt (pre ++ [b0, b1] ++ post) pre.length =
      .ok ⟨((216 + (b0 - 216) * 256 + b1 : ℕ) : ℤ), 2⟩ := by
  have hlen : (pre ++ [b0, b1] ++ post).length = pre.length + 2 + post.length := by
    simp only [List.length_append, List.length_cons, List.length_nil]
  have hg0 : (pre ++ [b0, b1] ++ post).getD pre.length 0 = b0 := by
    simpa using getD_mid pre [b0, b1] post 0 (by simp)
  have hg1 : (pre ++ [b0, b1] ++ post).getD (pre.length + 1) 0 = b1 := by
    simpa using getD_mid pre [b0, b1] post 1 (by simp)
  simp only [decodeUnsignedInt]
  rw [hlen, hg0, hg1, if_neg (by omega), if_neg (by omega : ¬ b0 ≤ 215), if_pos h2,
      if_neg (by omega)]

theorem decodeUnsignedInt_form252 (pre post : List ℕ) (b1 b2 : ℕ) :
    decodeUnsignedInt (pre ++ [252, b1, b2] ++ post) pre.length =
      .ok ⟨(((b1 <<< 8) ||| b2 : ℕ) : ℤ), 3⟩ := by
  have hlen : (pre ++ [252, b1, b2] ++ post).length = pre.length + 3 + post.length := by
    simp only [List.length_append, List.length_cons, List.length_nil]
  have hg0 : (pre ++ [252, b1, b2] ++ post).getD pre.length 0 = 252 := by
    simpa using getD_mid pre [252, b1, b2] post 0 (by simp)
  have hg1 : (pre ++ [252, b1, b2] ++ post).getD (pre.length + 1) 0 = b1 := by
    simpa using getD_mid pre [252, b1, b2] post 1 (by simp)
  have hg2 : (pre ++ [252, b1, b2] ++ post).getD (pre.length + 2) 0 = b2 := by
    simpa using getD_mid pre [252, b1, b2] post 2 (by simp)
  simp only [decodeUnsignedInt]
  rw [hlen, hg0, hg1, hg2, if_neg (by omega), if_neg (by omega), if_neg (by omega),
      if_pos rfl, if_neg (by omega)]

theorem decodeUnsignedInt_form253 (pre post : List ℕ) (b1 b2 b3 : ℕ) :
    decodeUnsignedInt (pre ++ [253, b1, b2, b3] ++ post) pre.length =
      .ok ⟨((((b1 <<< 16) ||| (b2 <<< 8)) ||| b3 : ℕ) : ℤ), 4⟩ := by
  have hlen : (pre ++ [253, b1, b2, b3] ++ post).length = pre.length + 4 + post.length := by
    simp only [List.length_append, List.length_cons, List.length_nil]
  have hg0 : (pre ++ [253, b1, b2, b3] ++ post).getD pre.length 0 = 253 := by
    simpa using getD_mid pre [253, b1, b2, b3] post 0 (by simp)
  have hg1 : (pre ++ [253, b1, b2, b3] ++ post).getD (pre.length + 1) 0 = b1 := by
    simpa using getD_mid pre [253, b1, b2, b3] post 1 (by simp)
  have hg2 : (pre ++ [253, b1, b2, b3] ++ post).getD (pre.length + 2) 0 = b2 := by
    simpa using getD_mid pre [253, b1, b2, b3] post 2 (by simp)
  have hg3 : (pre ++ [253, b1, b2, b3] ++ post).getD (pre.length + 3) 0 = b3 := by
    simpa using getD_mid pre [253, b1, b2, b3] post 3 (by simp)
  simp only [decodeUnsignedInt]
  rw [hlen, hg0, hg1, hg2, hg3, if_neg (by omega), if_neg (by omega), if_neg (by omega),
      if_neg (by omega), if_pos rfl, if_neg (by omega)]

theorem decodeUnsignedInt_form254 (pre post : List ℕ) (b1 b2 b3 b4 : ℕ) :
    decodeUnsignedInt (pre ++ [254, b1, b2, b3, b4] ++ post) pre.length =
      .ok ⟨((b1 * 0x1000000 + b2 * 0x10000 + b3 * 0x100 + b4 : ℕ) : ℤ), 5⟩ := by
  have hlen : (pre ++ [254, b1, b2, b3, b4] ++ post).length =
      pre.length + 5 + post.length := by
    simp only [List.length_append, List.length_cons, List.length_nil]
  have hg0 : (pre ++ [254, b1, b2, b3, b4] ++ post).getD pre.length 0 = 254 := by
    simpa using getD_mid pre [254, b1, b2, b3, b4] post 0 (by simp)
  have hg1 : (pre ++ [254, b1, b2, b3, b4] ++ post).getD (pre.length + 1) 0 = b1 := by
    simpa using getD_mid pre [254, b1, b2, b3, b4] post 1 (by simp)
  have hg2 : (pre ++ [254, b1, b2, b3, b4] ++ post).getD (pre.length + 2) 0 = b2 := by
    simpa using getD_mid pre [254, b1, b2, b3, b4] post 2 (by simp)
  have hg3 : (pre ++ [254, b1, b2, b3, b4] ++ post).getD (pre.length + 3) 0 = b3 := by
    simpa using getD_mid pre [254, b1, b2, b3, b4] post 3 (by simp)
  have hg4 : (pre ++ [254, b1, b2, b3, b4] ++ post).getD (pre.length + 4) 0 = b4 := by
    simpa using getD_mid pre [254, b1, b2, b3, b4] post 4 (by simp)
  simp only [decodeUnsignedInt]
  rw [hlen, hg0, hg1, hg2, hg3, hg4, if_neg (by omega), if_neg (by omega),
      if_neg (by omega), if_neg (by omega), if_neg (by omega), if_pos rfl,
      if_neg (by omega)]

theorem decodeUnsignedInt_form255 (pre post ds : List ℕ) (hds : ds.length = 8) :
    decodeUnsignedInt (pre ++ (255 :: ds) ++ post) pre.length =
      .ok ⟨floorDoubleLE ds, 9⟩ := by
  have hlen : (pre ++ (255 :: ds) ++ post).length = pre.length + 9 + post.length := by
    simp only [List.length_append, List.length_cons, hds]
  have hg0 : (pre ++ (255 :: ds) ++ post).getD pre.length 0 = 255 := by
    simpa using getD_mid pre (255 :: ds) post 0 (by simp)
  have htake : ((pre ++ (255 :: ds) ++ post).drop (pre.length + 1)).take 8 = ds := by
    rw [List.append_assoc, List.drop_append 1]
    have hcons : List.drop 1 ((255 :: ds) ++ post) = ds ++ post := by simp
    rw [hcons, ← hds, List.take_append_of_le_length (le_refl _), List.take_length]
  simp only [decodeUnsignedInt]
  rw [hlen, hg0, htake, if_neg (by omega), if_neg (by omega), if_neg (by omega),
      if_neg (by omega), if_neg (by omega), if_neg (by omega), if_pos rfl,
      if_neg (by omega)]

/-- Round trip of the unsigned varint through an arbitrary surrounding
buffer: decoding at the offset where an encoding was spliced in recovers the
value and its byte length.  The bound `u ≤ 2 ^ 53` is where the float64 form
is exact. -/
theorem decode_encodeUnsignedInt (u : ℤ) (h0 : 0 ≤ u) (h53 : u ≤ 2 ^ 53)
    (pre post bs : List ℕ) (hbs : encodeUnsignedInt u = .ok bs) :
    decodeUnsignedInt (pre ++ bs ++ post) pre.length = .ok ⟨u, bs.length⟩ := by
  have hc53 : (2 : ℤ) ^ 53 = 9007199254740992 := by norm_num
  unfold encodeUnsignedInt at hbs
  rw [if_neg (by omega)] at hbs
  by_cases h1 : u ≤ 215
  · rw [if_pos h1, Except.ok.injEq] at hbs
    subst hbs
    rw [decodeUnsignedInt_form1 pre post u.toNat (by omega)]
    simp [Int.toNat_of_nonneg h0]
  · rw [if_neg h1] at hbs
    by_cases h2 : u ≤ 9431
    · rw [if_pos h2] at hbs
      simp only [Except.ok.injEq] at hbs
      subst hbs
      have hfd : (u - 216).fdiv 256 = (u - 216) / 256 := Int.fdiv_eq_ediv _ (by norm_num)
      have htm : (u - 216).tmod 256 = (u - 216) % 256 :=
        Int.tmod_eq_emod (by omega) (by norm_num)
      rw [hfd, htm]
      rw [decodeUnsignedInt_form2 pre post _ _ (by omega) (by omega)]
      simp only [Except.ok.injEq, DecodeResult.mk.injEq]
      exact ⟨by omega, by simp⟩
    · rw [if_neg h2] at hbs
      by_cases h3 : u < 65536
      · rw [if_pos h3, Except.ok.injEq] at hbs
        subst hbs
        obtain ⟨j0, j8, _, _⟩ := jsByte_eq_spec u h0 (by omega)
        rw [j8, j0, decodeUnsignedInt_form252 pre post _ _,
            lor_shiftLeft_eq_add 8 _ _ (by omega)]
        simp only [Except.ok.injEq, DecodeResult.mk.injEq]
        refine ⟨?_, by simp⟩
        have hp8 : (2 : ℕ) ^ 8 = 256 := by norm_num
        rw [hp8]
        omega
      · rw [if_neg h3] at hbs
        by_cases h4 : u < 16777216
        · rw [if_pos h4, Except.ok.injEq] at hbs
          subst hbs
          obtain ⟨j0, j8, j16, _⟩ := jsByte_eq_spec u h0 (by omega)
          rw [j16, j8, j0, decodeUnsignedInt_form253 pre post _ _ _]
          have hb2 : (u.toNat / 256 % 256) <<< 8 < 2 ^ 16 := by
            rw [Nat.shiftLeft_eq]
            have hp8 : (2 : ℕ) ^ 8 = 256 := by norm_num
            have hp16 : (2 : ℕ) ^ 16 = 65536 := by norm_num
            omega
          rw [lor_shiftLeft_eq_add 16 _ _ hb2, Nat.shiftLeft_eq]
          have hre : u.toNat / 65536 % 256 * 2 ^ 16 + u.toNat / 256 % 256 * 2 ^ 8 =
              (u.toNat / 65536 % 256 * 2 ^ 8 + u.toNat / 256 % 256) <<< 8 := by
            -- combine the two upper bytes into a single shifted block
            rw [Nat.shiftLeft_eq]
            ring
          rw [hre, lor_shiftLeft_eq_add 8 _ _ (by omega)]
          simp only [Except.ok.injEq, DecodeResult.mk.injEq]
          refine ⟨?_, by simp⟩
          have hp8 : (2 : ℕ) ^ 8 = 256 := by norm_num
          rw [hp8]
          omega
        · rw [if_neg h4] at hbs
          by_cases h5 : u < 4294967296
          · rw [if_pos h5, Except.ok.injEq] at hbs
            subst hbs
            obtain ⟨j0, j8, j16, j24⟩ := jsByte_eq_spec u h0 (by omega)
            rw [j24, j16, j8, j0, decodeUnsignedInt_form254 pre post _ _ _ _]
            simp only [Except.ok.injEq, DecodeResult.mk.injEq]
            exact ⟨by omega, by simp⟩
          · rw [if_neg h5, Except.ok.injEq] at hbs
            subst hbs
            have hn32 : (2 : ℕ) ^ 32 ≤ u.toNat := by
              have hc32 : (2 : ℕ) ^ 32 = 4294967296 := by norm_num
              omega
            have hn53 : u.toNat ≤ 2 ^ 53 := by
              have hc53n : (2 : ℕ) ^ 53 = 9007199254740992 := by norm_num
              omega
            rw [decodeUnsignedInt_form255 pre post _ (by simp [doubleLEBytes]),
                floorDoubleLE_doubleLEBytes u.toNat hn32 hn53]
            simp [Int.toNat_of_nonneg h0, doubleLEBytes]

theorem char_toNat_valid (c : Char) :
    c.toNat < 55296 ∨ (57344 ≤ c.toNat ∧ c.toNat < 1114112) := by
  have h := c.valid
  unfold UInt32.isValidChar Nat.isValidChar at h
  exact h

theorem utf8DecodeAux_encodeChar (c : Char) (rest : List ℕ) (fuel : ℕ) :
    utf8DecodeAux (fuel + 1) (utf8EncodeChar c ++ rest) = c :: utf8DecodeAux fuel rest := by
  have hv := char_toNat_valid c
  have hofn : Char.ofNat c.toNat = c := Char.ofNat_toNat c
  unfold utf8EncodeChar
  by_cases h1 : c.toNat < 0x80
  · rw [if_pos h1]
    simp only [List.append_eq, List.cons_append, List.nil_append, utf8DecodeAux]
    rw [if_pos h1, hofn]
  · rw [if_neg h1]
    by_cases h2 : c.toNat < 0x800
    · rw [if_pos h2]
      simp only [List.append_eq, List.cons_append, List.nil_append, utf8DecodeAux]
      rw [if_neg (by omega), if_pos (by constructor <;> omega), if_pos (by constructor <;> omega)]
      have harith : (0xC0 + c.toNat / 64 - 0xC0) * 64 + (0x80 + c.toNat % 64 - 0x80) =
          c.toNat := by omega
      rw [harith, hofn]
    · rw [if_neg h2]
      by_cases h3 : c.toNat < 0x10000
      · rw [if_pos h3]
        simp only [List.append_eq, List.cons_append, List.nil_append, utf8DecodeAux]
        rw [if_neg (by omega), if_neg (by omega), if_pos (by constructor <;> omega)]
        have hcond : ((if 0xE0 + c.toNat / 4096 = 0xE0 then
              0xA0 ≤ 0x80 + c.toNat / 64 % 64 ∧ 0x80 + c.toNat / 64 % 64 ≤ 0xBF
            else if 0xE0 + c.toNat / 4096 = 0xED then
              0x80 ≤ 0x80 + c.toNat / 64 % 64 ∧ 0x80 + c.toNat / 64 % 64 ≤ 0x9F
            else 0x80 ≤ 0x80 + c.toNat / 64 % 64 ∧ 0x80 + c.toNat / 64 % 64 ≤ 0xBF) ∧
            0x80 ≤ 0x80 + c.toNat % 64 ∧ 0x80 + c.toNat % 64 ≤ 0xBF) := by
          refine ⟨?_, by omega, by omega⟩
          split_ifs with he hd
          · constructor <;> omega
          · constructor <;> omega
          · constructor <;> omega
        rw [if_pos hcond]
        have harith : (0xE0 + c.toNat / 4096 - 0xE0) * 4096 +
            (0x80 + c.toNat / 64 % 64 - 0x80) * 64 + (0x80 + c.toNat % 64 - 0x80) =
            c.toNat := by omega
        rw [harith, hofn]
      · rw [if_neg h3]
        simp only [List.append_eq, List.cons_append, List.nil_append, utf8DecodeAux]
        rw [if_neg (by omega), if_neg (by omega), if_neg (by omega),
            if_pos (by constructor <;> omega)]
        have hcond : ((if 0xF0 + c.toNat / 262144 = 0xF0 then
              0x90 ≤ 0x80 + c.toNat / 4096 % 64 ∧ 0x80 + c.toNat / 4096 % 64 ≤ 0xBF
            else if 0xF0 + c.toNat / 262144 = 0xF4 then
              0x80 ≤ 0x80 + c.toNat / 4096 % 64 ∧ 0x80 + c.toNat / 4096 % 64 ≤ 0x8F
            else 0x80 ≤ 0x80 + c.toNat / 4096 % 64 ∧ 0x80 + c.toNat / 4096 % 64 ≤ 0xBF) ∧
            (0x80 ≤ 0x80 + c.toNat / 64 % 64 ∧ 0x80 + c.toNat / 64 % 64 ≤ 0xBF) ∧
            0x80 ≤ 0x80 + c.toNat % 64 ∧ 0x80 + c.toNat % 64 ≤ 0xBF) := by
          refine ⟨?_, ⟨by omega, by omega⟩, by omega, by omega⟩
          split_ifs with he hd
          · constructor <;> omega
          · constructor <;> omega
          · constructor <;> omega
        rw [if_pos hcond]
        have harith : (0xF0 + c.toNat / 262144 - 0xF0) * 262144 +
            (0x80 + c.toNat / 4096 % 64 - 0x80) * 4096 +
            (0x80 + c.toNat / 64 % 64 - 0x80) * 64 + (0x80 + c.toNat % 64 - 0x80) =
            c.toNat := by omega
        rw [harith, hofn]

theorem utf8EncodeChar_length_pos (c : Char) : 1 ≤ (utf8EncodeChar c).length := by
  simp only [utf8EncodeChar]
  split_ifs <;> simp

theorem utf8DecodeAux_encodeList (cs : List Char) :
    ∀ fuel, cs.length ≤ fuel →
      utf8DecodeAux fuel ((cs.map utf8EncodeChar).flatten) = cs := by
  induction cs with
  | nil =>
    intro fuel _
    cases fuel <;> rfl
  | cons c cs ih =>
    intro fuel hf
    obtain ⟨f, rfl⟩ : ∃ f, fuel = f + 1 := ⟨fuel - 1, by simp at hf; omega⟩
    simp only [List.map_cons, List.flatten_cons]
    rw [utf8DecodeAux_encodeChar c _ f, ih f (by simp at hf; omega)]

theorem utf8Decode_utf8Encode (s : String) : utf8Decode (utf8Encode s) = s := by
  unfold utf8Decode utf8Encode
  have hge : s.data.length ≤ ((s.data.map utf8EncodeChar).flatten).length := by
    have h : ∀ cs : List Char, cs.length ≤ ((cs.map utf8EncodeChar).flatten).length := by
      intro cs
      induction cs with
      | nil => simp
      | cons c cs ih =>
        simp only [List.map_cons, List.flatten_cons, List.length_append, List.length_cons]
        have := utf8EncodeChar_length_pos c
        omega
    exact h s.data
  rw [utf8DecodeAux_encodeList s.data _ hge]

theorem encodeUnsignedInt_length_pos (u : ℤ) (bs : List ℕ)
    (hbs : encodeUnsignedInt u = .ok bs) : 1 ≤ bs.length := by
  unfold encodeUnsignedInt at hbs
  split_ifs at hbs <;> simp only [Except.ok.injEq] at hbs <;> try exact Except.noConfusion hbs
  all_goals (subst hbs; simp)

theorem encodeString_length_pos (s : String) (enc : List ℕ)
    (h : encodeString s = .ok enc) : 1 ≤ enc.length := by
  simp only [encodeString] at h
  rcases hE : encodeInt64 ((utf8Encode s).length : ℤ) with e | lb <;> rw [hE] at h
  · exact Except.noConfusion h
  · simp only [Except.ok.injEq] at h
    subst h
    unfold encodeInt64 at hE
    have := encodeUnsignedInt_length_pos _ lb hE
    simp only [List.length_append]
    omega

/-- Splicing an `encodeString` output into a buffer and decoding at its
offset recovers the string (the byte-length bound is where the varint length
prefix is exact). -/
theorem decodeString_encodeString (s : String)
    (h52 : ((utf8Encode s).length : ℤ) ≤ 2 ^ 52) (pre post enc : List ℕ)
    (henc : encodeString s = .ok enc) :
    ∃ br, decodeString (pre ++ enc ++ post) pre.length = .ok ⟨s, br⟩ := by
  simp only [encodeString] at henc
  rcases hE : encodeInt64 ((utf8Encode s).length : ℤ) with e | lb
  · rw [hE] at henc
    exact Except.noConfusion henc
  · rw [hE] at henc
    simp only [Except.ok.injEq] at henc
    subst henc
    unfold encodeInt64 at hE
    have hlen0 : (0 : ℤ) ≤ ((utf8Encode s).length : ℤ) := by positivity
    have habs : |((utf8Encode s).length : ℤ)| ≤ 2 ^ 52 := by
      rw [abs_of_nonneg hlen0]
      exact h52
    have hdecU := decode_encodeUnsignedInt _ (signedToUnsigned_nonneg _)
      (signedToUnsigned_le _ habs) pre (utf8Encode s ++ post) lb hE
    have hassoc : pre ++ (lb ++ utf8Encode s) ++ post = pre ++ lb ++ (utf8Encode s ++ post) := by
      simp [List.append_assoc]
    rw [hassoc]
    unfold decodeString decodeInt64
    rw [hdecU]
    simp only [zigzag_roundtrip]
    set len := ((utf8Encode s).length : ℤ) with hlen
    have hbuflen : (pre ++ lb ++ (utf8Encode s ++ post)).length =
        pre.length + lb.length + ((utf8Encode s).length + post.length) := by
      simp only [List.length_append]
    rw [if_neg (by rw [hbuflen]; push_cast; omega)]
    have hdrop : (pre ++ lb ++ (utf8Encode s ++ post)).drop (pre.length + lb.length) =
        utf8Encode s ++ post := by
      have h1 : pre ++ lb ++ (utf8Encode s ++ post) =
          (pre ++ lb) ++ (utf8Encode s ++ post) := by simp [List.append_assoc]
      have h2 : pre.length + lb.length = (pre ++ lb).length + 0 := by
        simp [List.length_append]
      rw [h1, h2, List.drop_append 0]
      rfl
    have htoNat : ((((pre.length + lb.length : ℕ)) : ℤ) + len -
        (((pre.length + lb.length : ℕ)) : ℤ)).toNat = (utf8Encode s).length := by
      rw [hlen]
      omega
    refine ⟨(lb.length : ℤ) + len, ?_⟩
    rw [hdrop, htoNat, List.take_append_of_le_length (le_refl _), List.take_length,
        utf8Decode_utf8Encode]

theorem digitChar_mem (d : ℕ) (hd : d < 10) : digitChar d ∈ ("0123456789".data) := by
  unfold digitChar
  interval_cases d <;> decide

theorem decimalReprAux_digits (fuel : ℕ) :
    ∀ n acc, (∀ c ∈ acc, c ∈ ("0123456789".data)) →
      ∀ c ∈ decimalReprAux fuel n acc, c ∈ ("0123456789".data) := by
  induction fuel with
  | zero => exact fun n acc hacc c hc => hacc c hc
  | succ f ih =>
    intro n acc hacc c hc
    simp only [decimalReprAux] at hc
    by_cases hn : n < 10
    · rw [if_pos hn] at hc
      rcases List.mem_cons.mp hc with h | h
      · subst h
        exact digitChar_mem n hn
      · exact hacc c h
    · rw [if_neg hn] at hc
      refine ih (n / 10) _ (fun c' hc' => ?_) c hc
      rcases List.mem_cons.mp hc' with h | h
      · subst h
        exact digitChar_mem _ (Nat.mod_lt _ (by norm_num))
      · exact hacc c' h

theorem decimalReprAux_length (k : ℕ) :
    ∀ fuel n acc, k < fuel → 10 ^ k ≤ n → n < 10 ^ (k + 1) →
      (decimalReprAux fuel n acc).length = acc.length + (k + 1) := by
  induction k with
  | zero =>
    intro fuel n acc hf h1 h2
    obtain ⟨f, rfl⟩ : ∃ f, fuel = f + 1 := ⟨fuel - 1, by omega⟩
    simp only [decimalReprAux]
    rw [if_pos (by simpa using h2)]
    simp
  | succ k ih =>
    intro fuel n acc hf h1 h2
    obtain ⟨f, rfl⟩ : ∃ f, fuel = f + 1 := ⟨fuel - 1, by omega⟩
    simp only [decimalReprAux]
    have h10 : (10 : ℕ) ≤ 10 ^ (k + 1) := by
      calc (10 : ℕ) = 10 ^ 1 := by norm_num
        _ ≤ 10 ^ (k + 1) := Nat.pow_le_pow_right (by norm_num) (by omega)
    rw [if_neg (by omega)]
    have hd1 : 10 ^ k ≤ n / 10 := by
      have hdd := Nat.div_le_div_right (c := 10) h1
      rwa [pow_succ, Nat.mul_div_cancel _ (by norm_num)] at hdd
    have hd2 : n / 10 < 10 ^ (k + 1) := by
      rw [Nat.div_lt_iff_lt_mul (by norm_num)]
      calc n < 10 ^ (k + 1 + 1) := h2
        _ = 10 ^ (k + 1) * 10 := by rw [pow_succ]
    rw [ih f (n / 10) _ (by omega) hd1 hd2]
    simp only [List.length_cons]
    omega

theorem replicate_flatten_take (l : List Char) (n : ℕ) (hn : n ≤ l.length) :
    (List.replicate n l).flatten.take n = l.take n := by
  cases n with
  | zero => simp
  | succ m =>
    rw [List.replicate_succ, List.flatten_cons, List.take_append_of_le_length (by omega)]

theorem isEmpty_false_of_ne (s : String) (h : s ≠ "") : s.isEmpty = false := by
  rw [Bool.eq_false_iff]
  intro hc
  exact h (String.isEmpty_iff s |>.mp hc)

/-! ## Claims -/

/-- C1: for every signed integer n with |n| ≤ 2^52, the zigzag map
round-trips, and `decodeInt64 (encodeInt64 n) 0` returns value n with
`bytesRead` equal to the encoded byte length. -/
theorem claim_C1 (n : ℤ) (h : |n| ≤ 2 ^ 52) :
    unsignedToSigned (signedToUnsigned n) = n ∧
    ∃ bs, encodeInt64 n = .ok bs ∧ decodeInt64 bs 0 = .ok ⟨n, bs.length⟩ := by
  refine ⟨zigzag_roundtrip n, ?_⟩
  obtain ⟨bs, hbs⟩ := encodeUnsignedInt_ok_of_nonneg _ (signedToUnsigned_nonneg n)
  refine ⟨bs, by unfold encodeInt64; exact hbs, ?_⟩
  have hdec := decode_encodeUnsignedInt _ (signedToUnsigned_nonneg n)
    (signedToUnsigned_le n h) [] [] bs hbs
  simp only [List.nil_append, List.append_nil, List.length_nil] at hdec
  unfold decodeInt64
  rw [hdec]
  simp [zigzag_roundtrip n]

/-- C1 witness. -/
theorem claim_C1_witness :
    |(-5 : ℤ)| ≤ 2 ^ 52 ∧
    (unsignedToSigned (signedToUnsigned (-5)) = -5 ∧
     ∃ bs, encodeInt64 (-5) = .ok bs ∧ decodeInt64 bs 0 = .ok ⟨-5, bs.length⟩) :=
  ⟨by decide, claim_C1 (-5) (by decide)⟩

/-- C2: for every n < 2^53, `encodeUnsignedInt n` has the length and first
byte the range table prescribes, and the boundary vectors at 215 and 216
hold bit-exactly. -/
theorem claim_C2 (n : ℕ) (hn : n < 2 ^ 53) :
    (∃ bs, encodeUnsignedInt (n : ℤ) = .ok bs ∧
      (n ≤ 215 → bs = [n]) ∧
      (216 ≤ n ∧ n ≤ 9431 → bs.length = 2 ∧ 216 ≤ bs.getD 0 0 ∧ bs.getD 0 0 ≤ 251) ∧
      (9432 ≤ n ∧ n < 65536 → bs.length = 3 ∧ bs.getD 0 0 = 252) ∧
      (65536 ≤ n ∧ n < 16777216 → bs.length = 4 ∧ bs.getD 0 0 = 253) ∧
      (16777216 ≤ n ∧ n < 4294967296 → bs.length = 5 ∧ bs.getD 0 0 = 254) ∧
      (4294967296 ≤ n → bs.length = 9 ∧ bs.getD 0 0 = 255)) ∧
    encodeUnsignedInt 215 = .ok [215] ∧
    encodeUnsignedInt 216 = .ok [216, 0] := by
  have hc53 : (2 : ℕ) ^ 53 = 9007199254740992 := by norm_num
  refine ⟨?_, rfl, rfl⟩
  unfold encodeUnsignedInt
  rw [if_neg (by omega : ¬ (n : ℤ) < 0)]
  by_cases h1 : n ≤ 215
  · rw [if_pos (by exact_mod_cast h1 : (n : ℤ) ≤ 215)]
    refine ⟨[(n : ℤ).toNat], rfl, fun _ => by simp, ?_, ?_, ?_, ?_, ?_⟩ <;>
      (intro h'; omega)
  · rw [if_neg (by exact_mod_cast h1 : ¬ (n : ℤ) ≤ 215)]
    by_cases h2 : n ≤ 9431
    · rw [if_pos (by exact_mod_cast h2 : (n : ℤ) ≤ 9431)]
      have hfd : ((n : ℤ) - 216).fdiv 256 = ((n : ℤ) - 216) / 256 :=
        Int.fdiv_eq_ediv _ (by norm_num)
      refine ⟨_, rfl, fun h' => by omega, fun _ => ⟨rfl, ?_, ?_⟩, ?_, ?_, ?_, ?_⟩
      · simp only [List.getD_cons_zero, hfd]
        omega
      · simp only [List.getD_cons_zero, hfd]
        omega
      all_goals (intro h'; omega)
    · rw [if_neg (by exact_mod_cast h2 : ¬ (n : ℤ) ≤ 9431)]
      by_cases h3 : n < 65536
      · rw [if_pos (by exact_mod_cast h3 : (n : ℤ) < 65536)]
        refine ⟨_, rfl, fun h' => by omega, fun h' => by omega, fun _ => ⟨rfl, rfl⟩,
          ?_, ?_, ?_⟩ <;> (intro h'; omega)
      · rw [if_neg (by exact_mod_cast h3 : ¬ (n : ℤ) < 65536)]
        by_cases h4 : n < 16777216
        · rw [if_pos (by exact_mod_cast h4 : (n : ℤ) < 16777216)]
          refine ⟨_, rfl, fun h' => by omega, fun h' => by omega, fun h' => by omega,
            fun _ => ⟨rfl, rfl⟩, ?_, ?_⟩ <;> (intro h'; omega)
        · rw [if_neg (by exact_mod_cast h4 : ¬ (n : ℤ) < 16777216)]
          by_cases h5 : n < 4294967296
          · rw [if_pos (by exact_mod_cast h5 : (n : ℤ) < 4294967296)]
            refine ⟨_, rfl, fun h' => by omega, fun h' => by omega, fun h' => by omega,
              fun h' => by omega, fun _ => ⟨rfl, rfl⟩, ?_⟩
            intro h'
            omega
          · rw [if_neg (by exact_mod_cast h5 : ¬ (n : ℤ) < 4294967296)]
            refine ⟨_, rfl, fun h' => by omega, fun h' => by omega, fun h' => by omega,
              fun h' => by omega, fun h' => by omega, fun _ => ⟨?_, rfl⟩⟩
            simp [doubleLEBytes]

/-- C2 witness. -/
theorem claim_C2_witness :
    (300 : ℕ) < 2 ^ 53 ∧
    ((∃ bs, encodeUnsignedInt ((300 : ℕ) : ℤ) = .ok bs ∧
      ((300 : ℕ) ≤ 215 → bs = [300]) ∧
      (216 ≤ (300 : ℕ) ∧ (300 : ℕ) ≤ 9431 →
        bs.length = 2 ∧ 216 ≤ bs.getD 0 0 ∧ bs.getD 0 0 ≤ 251) ∧
      (9432 ≤ (300 : ℕ) ∧ (300 : ℕ) < 65536 → bs.length = 3 ∧ bs.getD 0 0 = 252) ∧
      (65536 ≤ (300 : ℕ) ∧ (300 : ℕ) < 16777216 → bs.length = 4 ∧ bs.getD 0 0 = 253) ∧
      (16777216 ≤ (300 : ℕ) ∧ (300 : ℕ) < 4294967296 →
        bs.length = 5 ∧ bs.getD 0 0 = 254) ∧
      (4294967296 ≤ (300 : ℕ) → bs.length = 9 ∧ bs.getD 0 0 = 255)) ∧
     encodeUnsignedInt 215 = .ok [215] ∧
     encodeUnsignedInt 216 = .ok [216, 0]) :=
  ⟨by decide, claim_C2 300 (by decide)⟩

/-- C3: the tagged message envelope round-trips for every tag byte, soft-fails
(`none`) on a mismatched tag, and soft-fails on short buffers or on buffers
whose string part fails to decode.  The byte-length bound on the string is
the range where the varint length prefix is exact (the spec's "fits in a
double" precondition); every representable JS string satisfies it. -/
theorem claim_C3 (s : String) (k k' : ℕ) (buf2 : List ℕ)
    (hk : k < 256) (hk' : k' < 256) (hne : k' ≠ k)
    (h52 : ((utf8Encode s).length : ℤ) ≤ 2 ^ 52)
    (h2 : buf2.length < 2 ∨ ∃ e, decodeString buf2 1 = .error e) :
    (∃ buf, encodeMessage s k = .ok buf ∧
      decodeMessage buf k = some s ∧ decodeMessage buf k' = none) ∧
    decodeMessage buf2 k = none := by
  constructor
  · obtain ⟨enc, henc⟩ := encodeString_ok s
    have hmsg : encodeMessage s k = .ok (k % 256 :: enc) := by
      unfold encodeMessage
      rw [henc]
    have hmod : k % 256 = k := Nat.mod_eq_of_lt hk
    have hlen1 : 1 ≤ enc.length := encodeString_length_pos s enc henc
    obtain ⟨br, hbr⟩ := decodeString_encodeString s h52 [k] [] enc henc
    have hds : decodeString (k :: enc) 1 = .ok ⟨s, br⟩ := by simpa using hbr
    refine ⟨k % 256 :: enc, hmsg, ?_, ?_⟩
    · unfold decodeMessage
      rw [hmod]
      rw [if_neg (by simp only [List.length_cons]; omega)]
      rw [if_neg (by simp)]
      rw [hds]
    · unfold decodeMessage
      rw [hmod]
      rw [if_neg (by simp only [List.length_cons]; omega)]
      rw [if_pos (by simpa using Ne.symm hne)]
  · rcases h2 with hshort | ⟨e, he⟩
    · unfold decodeMessage
      rw [if_pos hshort]
    · unfold decodeMessage
      by_cases hlen : buf2.length < 2
      · rw [if_pos hlen]
      · rw [if_neg hlen]
        by_cases htag : buf2.getD 0 0 ≠ k
        · rw [if_pos htag]
        · rw [if_neg htag, he]

/-- C3 witness. -/
theorem claim_C3_witness :
    (0 : ℕ) < 256 ∧ (1 : ℕ) < 256 ∧ (1 : ℕ) ≠ 0 ∧
    ((utf8Encode "hi").length : ℤ) ≤ 2 ^ 52 ∧
    (([] : List ℕ).length < 2 ∨ ∃ e, decodeString [] 1 = .error e) ∧
    ((∃ buf, encodeMessage "hi" 0 = .ok buf ∧
      decodeMessage buf 0 = some "hi" ∧ decodeMessage buf 1 = none) ∧
     decodeMessage [] 0 = none) :=
  ⟨by decide, by decide, by decide, by decide, Or.inl (by decide),
   claim_C3 "hi" 0 1 [] (by decide) (by decide) (by decide) (by decide)
     (Or.inl (by decide))⟩

/-- C4: `encodeUnsignedInt n` raises iff n < 0, and `decodeUnsignedInt`
succeeds on a byte buffer exactly when a first byte exists at the offset and
the form it declares lies fully within the buffer (every first byte 0–255 is
recognized, so "invalid marker" is unreachable on byte-valued buffers). -/
theorem claim_C4 (n : ℤ) (buf : List ℕ) (off : ℕ) (hbytes : ∀ b ∈ buf, b < 256) :
    ((∃ e, encodeUnsignedInt n = .error e) ↔ n < 0) ∧
    ((∃ r, decodeUnsignedInt buf off = .ok r) ↔
      off < buf.length ∧ off + wire3FormLength (buf.getD off 0) ≤ buf.length) := by
  constructor
  · constructor
    · rintro ⟨e, he⟩
      by_contra hc
      push_neg at hc
      obtain ⟨bs, hbs⟩ := encodeUnsignedInt_ok_of_nonneg n hc
      rw [hbs] at he
      exact Except.noConfusion he
    · intro hneg
      exact ⟨_, by unfold encodeUnsignedInt; rw [if_pos hneg]⟩
  · by_cases hoff : buf.length ≤ off
    · constructor
      · rintro ⟨r, hr⟩
        unfold decodeUnsignedInt at hr
        rw [if_pos hoff] at hr
        exact Except.noConfusion hr
      · rintro ⟨h1, _⟩
        omega
    · push_neg at hoff
      have hb0lt : buf.getD off 0 < 256 := by
        apply hbytes
        rw [List.getD_eq_getElem buf 0 hoff]
        exact List.getElem_mem hoff
      set b0 := buf.getD off 0 with hb0
      simp only [decodeUnsignedInt, wire3FormLength]
      rw [← hb0, if_neg (by omega)]
      by_cases h1 : b0 ≤ 215
      · rw [if_pos h1, if_pos h1]
        exact ⟨fun _ => ⟨hoff, by omega⟩, fun _ => ⟨_, rfl⟩⟩
      · rw [if_neg h1, if_neg h1]
        by_cases h2 : b0 < 252
        · rw [if_pos h2, if_pos h2]
          by_cases hg : buf.length ≤ off + 1
          · rw [if_pos hg]
            exact ⟨fun ⟨r, hr⟩ => Except.noConfusion hr, fun ⟨_, h⟩ => by omega⟩
          · rw [if_neg hg]
            exact ⟨fun _ => ⟨hoff, by omega⟩, fun _ => ⟨_, rfl⟩⟩
        · rw [if_neg h2, if_neg h2]
          by_cases h3 : b0 = 252
          · rw [if_pos h3, if_pos h3]
            by_cases hg : buf.length ≤ off + 2
            · rw [if_pos hg]
              exact ⟨fun ⟨r, hr⟩ => Except.noConfusion hr, fun ⟨_, h⟩ => by omega⟩
            · rw [if_neg hg]
              exact ⟨fun _ => ⟨hoff, by omega⟩, fun _ => ⟨_, rfl⟩⟩
          · rw [if_neg h3, if_neg h3]
            by_cases h4 : b0 = 253
            · rw [if_pos h4, if_pos h4]
              by_cases hg : buf.length ≤ off + 3
              · rw [if_pos hg]
                exact ⟨fun ⟨r, hr⟩ => Except.noConfusion hr, fun ⟨_, h⟩ => by omega⟩
              · rw [if_neg hg]
                exact ⟨fun _ => ⟨hoff, by omega⟩, fun _ => ⟨_, rfl⟩⟩
            · rw [if_neg h4, if_neg h4]
              by_cases h5 : b0 = 254
              · rw [if_pos h5, if_pos h5]
                by_cases hg : buf.length ≤ off + 4
                · rw [if_pos hg]
                  exact ⟨fun ⟨r, hr⟩ => Except.noConfusion hr, fun ⟨_, h⟩ => by omega⟩
                · rw [if_neg hg]
                  exact ⟨fun _ => ⟨hoff, by omega⟩, fun _ => ⟨_, rfl⟩⟩
              · rw [if_neg h5, if_neg h5]
                have h6 : b0 = 255 := by omega
                rw [if_pos h6]
                by_cases hg : buf.length ≤ off + 8
                · rw [if_pos hg]
                  exact ⟨fun ⟨r, hr⟩ => Except.noConfusion hr, fun ⟨_, h⟩ => by omega⟩
                · rw [if_neg hg]
                  exact ⟨fun _ => ⟨hoff, by omega⟩, fun _ => ⟨_, rfl⟩⟩

/-- C4 witness. -/
theorem claim_C4_witness :
    (∀ b ∈ [216, 5], b < 256) ∧
    (((∃ e, encodeUnsignedInt (-1) = .error e) ↔ (-1 : ℤ) < 0) ∧
     ((∃ r, decodeUnsignedInt [216, 5] 0 = .ok r) ↔
       0 < [216, 5].length ∧ 0 + wire3FormLength ([216, 5].getD 0 0) ≤ [216, 5].length)) :=
  ⟨by decide, claim_C4 (-1) [216, 5] 0 (by decide)⟩

/-- C5 (counterexample): the claim says an inbound election frame carrying
leader id "Y" sets `leaderId := "Y"` even when no clientId is stored yet;
on such a state the code leaves `leaderId` at its previous value "Z". -/
theorem claim_C5_counterexample :
    (handleFrame exampleNoClientState (Frame.election (some "Y"))).1.leaderId = some "Z" ∧
    (handleFrame exampleNoClientState (Frame.election (some "Y"))).1.leaderId ≠ some "Y" := by
  constructor
  · rfl
  · decide

/-- C5 (amended): on an inbound election frame carrying a non-empty leader
id L, when a non-empty clientId c is stored the adapter sets
`leaderId := L` — also when L equals the current leaderId — except that a
self-election (c = L) subsequently clears it in the teardown; when no
clientId is stored the frame is ignored and `leaderId` is unchanged. -/
theorem claim_C5 (st : ClientState) (L : String) (hL : L ≠ "") :
    (∀ c, st.clientId = some c → c ≠ "" →
       (c ≠ L → (handleFrame st (Frame.election (some L))).1.leaderId = some L) ∧
       (c = L → (handleFrame st (Frame.election (some L))).1.leaderId = none)) ∧
    (st.clientId = none → handleFrame st (Frame.election (some L)) = (st, [])) := by
  have hLe : L.isEmpty = false := isEmpty_false_of_ne L hL
  constructor
  · intro c hc hcne
    have hce : c.isEmpty = false := isEmpty_false_of_ne c hcne
    constructor
    · intro hne
      simp [handleFrame, evaluateLeaderStatus, jsFalsy, hc, hLe, hce,
            applyLeaderStatusChange, hne, Ne.symm hne]
    · intro heq
      subst heq
      simp only [handleFrame, evaluateLeaderStatus, jsFalsy, hc, hLe, hce,
            applyLeaderStatusChange, handleLeaderDisconnection, disconnectInternal,
            Bool.false_or, Bool.or_self, Bool.false_eq_true, if_false, if_true,
            decide_True, decide_eq_true_eq, if_pos rfl]
      split <;> rfl
  · intro hc
    simp [handleFrame, evaluateLeaderStatus, jsFalsy, hc, applyLeaderStatusChange]

/-- C5 witness. -/
theorem claim_C5_witness :
    ("B" : String) ≠ "" ∧
    ((∀ c, exampleClientAState.clientId = some c → c ≠ "" →
       (c ≠ "B" →
         (handleFrame exampleClientAState (Frame.election (some "B"))).1.leaderId = some "B") ∧
       (c = "B" →
         (handleFrame exampleClientAState (Frame.election (some "B"))).1.leaderId = none)) ∧
     (exampleClientAState.clientId = none →
       handleFrame exampleClientAState (Frame.election (some "B")) = (exampleClientAState, []))) :=
  ⟨by decide, claim_C5 exampleClientAState "B" (by decide)⟩

/-- C6 (counterexample): from a handshaken state with `maxRetries = 2`,
processing two self-election frames in a row does not terminate the
leader-avoidance loop: the final readyState is CONNECTING (0), not CLOSED
(3), `retryCount` is 1, not 3, and `onleaderdisconnect` never fires. -/
theorem claim_C6_counterexample :
    (handleFrame (handleFrame exampleHandshakenState (Frame.election (some "X1"))).1
      (Frame.election (some "X1"))).1.readyState ≠ 3 ∧
    (handleFrame (handleFrame exampleHandshakenState (Frame.election (some "X1"))).1
      (Frame.election (some "X1"))).1.retryCount ≠ 3 ∧
    Effect.cbLeaderDisconnect 3 ∉
      (handleFrame exampleHandshakenState (Frame.election (some "X1"))).2 ∧
    Effect.cbLeaderDisconnect 3 ∉
      (handleFrame (handleFrame exampleHandshakenState (Frame.election (some "X1"))).1
        (Frame.election (some "X1"))).2 := by
  decide

/-- C6 (amended): with `maxRetries = 2` and `retryCount` starting at 0, the
first self-election frame increments `retryCount` to 1, tears the
connection down (clearing `clientId`) and schedules a reconnect with
readyState CONNECTING; because `clientId` is cleared by the teardown, a
second self-election frame without an intervening successful handshake is
ignored: the state is unchanged, no effect fires, and the exhaustion branch
(CLOSED plus `onleaderdisconnect`) is not reached. -/
theorem claim_C6 :
    handleFrame exampleHandshakenState (Frame.election (some "X1")) =
      ({ exampleHandshakenState with
          connectionId := none, clientId := none, leaderId := none,
          readyState := 0, isReady := false, retryCount := 1,
          retryTimeout := true, wsPresent := false },
       [Effect.wsClose, Effect.scheduleRetry]) ∧
    handleFrame
      { exampleHandshakenState with
          connectionId := none, clientId := none, leaderId := none,
          readyState := 0, isReady := false, retryCount := 1,
          retryTimeout := true, wsPresent := false }
      (Frame.election (some "X1")) =
      ({ exampleHandshakenState with
          connectionId := none, clientId := none, leaderId := none,
          readyState := 0, isReady := false, retryCount := 1,
          retryTimeout := true, wsPresent := false }, []) := by
  decide

/-- C7: `send(data)` silently drops while `0 < retryCount ≤ maxRetries`;
otherwise it enqueues the framed transport message when CONNECTING (0),
sends it on the socket when OPEN (1), and raises synchronously in every
other readyState. -/
theorem claim_C7 (st : ClientState) (data : String) :
    (0 < st.retryCount ∧ st.retryCount ≤ st.maxRetries → send st data = .ok (st, [])) ∧
    (¬ (0 < st.retryCount ∧ st.retryCount ≤ st.maxRetries) →
      (st.readyState = 0 →
        ∃ tm, createTransportMessage st.sessionId st.connectionId data st.duVariant = .ok tm ∧
          send st data = .ok ({ st with messageQueue := st.messageQueue ++ [tm] }, [])) ∧
      (st.readyState = 1 →
        ∃ tm, createTransportMessage st.sessionId st.connectionId data st.duVariant = .ok tm ∧
          send st data = .ok (st, [Effect.wsSend tm])) ∧
      (st.readyState ≠ 0 → st.readyState ≠ 1 → ∃ e, send st data = .error e)) := by
  obtain ⟨tm, htm⟩ := createTransportMessage_ok st.sessionId st.connectionId data st.duVariant
  refine ⟨fun h => ?_, fun h => ⟨fun h0 => ?_, fun h1 => ?_, fun h0 h1 => ?_⟩⟩
  · unfold send
    rw [if_pos h]
  · exact ⟨tm, htm, by unfold send; rw [if_neg h, if_pos h0, htm]⟩
  · exact ⟨tm, htm, by
      unfold send
      rw [if_neg h, if_neg (by omega), if_neg (by simp [h1]), htm]⟩
  · exact ⟨_, by unfold send; rw [if_neg h, if_neg h0, if_pos h1]⟩

/-- C7 witness (at the mid-avoidance state: the send is silently dropped). -/
theorem claim_C7_witness :
    ((0 < exampleRetryingState.retryCount ∧
        exampleRetryingState.retryCount ≤ exampleRetryingState.maxRetries →
      send exampleRetryingState "ping" = .ok (exampleRetryingState, [])) ∧
     (¬ (0 < exampleRetryingState.retryCount ∧
          exampleRetryingState.retryCount ≤ exampleRetryingState.maxRetries) →
      (exampleRetryingState.readyState = 0 →
        ∃ tm, createTransportMessage exampleRetryingState.sessionId
            exampleRetryingState.connectionId "ping" exampleRetryingState.duVariant = .ok tm ∧
          send exampleRetryingState "ping" =
            .ok ({ exampleRetryingState with
                    messageQueue := exampleRetryingState.messageQueue ++ [tm] }, [])) ∧
      (exampleRetryingState.readyState = 1 →
        ∃ tm, createTransportMessage exampleRetryingState.sessionId
            exampleRetryingState.connectionId "ping" exampleRetryingState.duVariant = .ok tm ∧
          send exampleRetryingState "ping" = .ok (exampleRetryingState, [Effect.wsSend tm])) ∧
      (exampleRetryingState.readyState ≠ 0 → exampleRetryingState.readyState ≠ 1 →
        ∃ e, send exampleRetryingState "ping" = .error e))) :=
  claim_C7 exampleRetryingState "ping"

/-- C8 (counterexample): the claim says `close()` leaves readyState CLOSING
(2) from every prior state, including when no underlying socket exists; on
a socketless state (mid retry delay) the code instead sets readyState to
CLOSED (3). -/
theorem claim_C8_counterexample :
    (close exampleRetryingState).1.readyState ≠ 2 ∧
    (close exampleRetryingState).1.readyState = 3 ∧
    (close exampleRetryingState).1.retryTimeout = false := by
  decide

/-- C8 (amended): after `close` returns, any pending retry timer is
cancelled; readyState is CLOSING (2) — and the socket is closed — exactly
when an underlying socket exists, and CLOSED (3) when none does. -/
theorem claim_C8 (st : ClientState) :
    (close st).1.retryTimeout = false ∧
    (st.wsPresent = true → (close st).1.readyState = 2 ∧ (close st).2 = [Effect.wsClose]) ∧
    (st.wsPresent = false → (close st).1.readyState = 3 ∧ (close st).2 = []) := by
  unfold close
  cases h : st.wsPresent <;> simp [h]

/-- C8 witness. -/
theorem claim_C8_witness :
    (close exampleClientAState).1.retryTimeout = false ∧
    (exampleClientAState.wsPresent = true →
      (close exampleClientAState).1.readyState = 2 ∧
      (close exampleClientAState).2 = [Effect.wsClose]) ∧
    (exampleClientAState.wsPresent = false →
      (close exampleClientAState).1.readyState = 3 ∧ (close exampleClientAState).2 = []) :=
  claim_C8 exampleClientAState

/-- C9: for every draw r in [10000, 1000000), `generateSessionId r` is a
40-character string: the 5 or 6 decimal digits of r followed by the prefix
of the fixed seed that fills to length 40, and every character is in
{0–9, a–f}. -/
theorem claim_C9 (r : ℕ) (h1 : 10000 ≤ r) (h2 : r < 1000000) :
    (generateSessionId r).length = 40 ∧
    (generateSessionId r).data =
      (decimalRepr r).data ++
        SESSION_ID_PADDING_CHARS.data.take (40 - (decimalRepr r).length) ∧
    ((decimalRepr r).length = 5 ∨ (decimalRepr r).length = 6) ∧
    (∀ c ∈ (decimalRepr r).data, c ∈ ("0123456789".data)) ∧
    (∀ c ∈ (generateSessionId r).data, c ∈ ("0123456789abcdef".data)) := by
  have hpadlen : SESSION_ID_PADDING_CHARS.data.length = 40 := by decide
  have hlen : (decimalRepr r).length = 5 ∨ (decimalRepr r).length = 6 := by
    by_cases hr : r < 100000
    · left
      show (decimalReprAux (r + 1) r []).length = 5
      rw [decimalReprAux_length 4 (r + 1) r [] (by omega) (by norm_num; omega)
        (by norm_num; omega)]
      simp
    · right
      show (decimalReprAux (r + 1) r []).length = 6
      rw [decimalReprAux_length 5 (r + 1) r [] (by omega) (by norm_num; omega)
        (by norm_num; omega)]
      simp
  have hdig : ∀ c ∈ (decimalRepr r).data, c ∈ ("0123456789".data) :=
    decimalReprAux_digits (r + 1) r [] (by simp)
  have hdata : (generateSessionId r).data =
      (decimalRepr r).data ++
        SESSION_ID_PADDING_CHARS.data.take (40 - (decimalRepr r).length) := by
    show (decimalRepr r).data ++
        (List.replicate (40 - (decimalRepr r).length) SESSION_ID_PADDING_CHARS.data).flatten.take
          (40 - (decimalRepr r).length) = _
    rw [replicate_flatten_take _ _ (by omega)]
  refine ⟨?_, hdata, hlen, hdig, ?_⟩
  · show (generateSessionId r).data.length = 40
    rw [hdata]
    simp only [List.length_append, List.length_take, hpadlen]
    have : (decimalRepr r).data.length = (decimalRepr r).length := rfl
    omega
  · intro c hc
    rw [hdata] at hc
    rcases List.mem_append.mp hc with h | h
    · have hsub : ∀ c' ∈ ("0123456789".data), c' ∈ ("0123456789abcdef".data) := by decide
      exact hsub c (hdig c h)
    · have hsub : ∀ c' ∈ SESSION_ID_PADDING_CHARS.data, c' ∈ ("0123456789abcdef".data) := by
        decide
      exact hsub c (List.take_subset _ _ h)

/-- C9 witness. -/
theorem claim_C9_witness :
    10000 ≤ 123456 ∧ 123456 < 1000000 ∧
    ((generateSessionId 123456).length = 40 ∧
     (generateSessionId 123456).data =
       (decimalRepr 123456).data ++
         SESSION_ID_PADDING_CHARS.data.take (40 - (decimalRepr 123456).length) ∧
     ((decimalRepr 123456).length = 5 ∨ (decimalRepr 123456).length = 6) ∧
     (∀ c ∈ (decimalRepr 123456).data, c ∈ ("0123456789".data)) ∧
     (∀ c ∈ (generateSessionId 123456).data, c ∈ ("0123456789abcdef".data))) :=
  ⟨by decide, by decide, claim_C9 123456 (by decide) (by decide)⟩

/-- C10: the string length prefix is a zigzag signed integer, so a negative
declared length is not rejected: `decodeString [0x01] 0` (declared length
−1) returns `value = ""` with `bytesRead = 0` (prefix bytes plus the
negative declared length), and for every tag byte k,
`decodeMessage [k, 0x01] k` returns `some ""` instead of `none`. -/
theorem claim_C10 (k : ℕ) (hk : k < 256) :
    decodeString [1] 0 = .ok ⟨"", 0⟩ ∧ decodeMessage [k, 1] k = some "" := by
  refine ⟨rfl, ?_⟩
  have h1 : decodeString [k, 1] 1 = .ok ⟨"", 0⟩ := by
    unfold decodeString decodeInt64 decodeUnsignedInt
    norm_num
    rfl
  simp [decodeMessage, h1]

/-- C10 witness. -/
theorem claim_C10_witness :
    (0 : ℕ) < 256 ∧
    (decodeString [1] 0 = .ok ⟨"", 0⟩ ∧ decodeMessage [0, 1] 0 = some "") :=
  ⟨by decide, claim_C10 0 (by decide)⟩

end LamderaWS
